import Mathlib

/-!
Verification of the imag storage engine (libimagstore) against its
natural-language specification.

The development shallowly embeds the core of `libimagstore/src/store.rs`
(together with `error.rs` and `storeid.rs`): the structured header value
tree with its dotted-path accessor language, header schema verification,
the on-disk entry serialization format and its regex-based parser, and the
Store facade with its cache-slot borrow discipline and hook pipeline.

Modelling conventions:
 - Rust `usize` indices are `Nat`; the tokenizer keeps the `u64` overflow
   bound of `usize::from_str` explicit.
 - Rust panics (out-of-bounds `Vec` indexing, failed `assert!`) are a
   distinguished `PRes.panic` outcome.
 - `BTreeMap<String, Value>` is an association list; insertion replaces in
   place when the key exists and appends otherwise (key iteration order is
   never observed by the properties proved here).
 - The external `semver` crate is abstracted as a parameter
   `sv : String → Bool` (does this string parse as a semantic version).
 - The external `toml` crate and the parts of the repository that are not
   in the source snapshot (`lazyfile.rs`, the `hook` module,
   `configuration.rs`) are modelled from the spec; each such definition
   says so in its doc comment.
-/

/-- Error kinds of `StoreError`, from `libimagstore/src/error.rs`. -/
inductive StoreErrorKind where
  | ConfigurationError
  | FileError
  | IdLocked
  | IdNotFound
  | OutOfMemory
  | FileNotFound
  | FileNotCreated
  | IoError
  | StorePathExists
  | StorePathCreate
  | LockError
  | LockPoisoned
  | EntryAlreadyBorrowed
  | EntryAlreadyExists
  | EntryNotExistent
  | EntryRenameError
  | MalformedEntry
  | HeaderPathSyntaxError
  | HeaderPathTypeFailure
  | HeaderKeyNotFound
  | HeaderTypeFailure
  | HookRegisterError
  | AspectNameNotFoundError
  | HookExecutionError
  | PreHookExecuteError
  | PostHookExecuteError
  | StorePathLacksVersion
  | GlobError
  | EncodingError
deriving DecidableEq, Repr

/-- Error kinds of `ParserError`, from `libimagstore/src/error.rs`. -/
inductive ParserErrorKind where
  | TOMLParserErrors
  | MissingMainSection
  | MissingVersionInfo
  | NonTableInBaseTable
  | HeaderInconsistency
deriving DecidableEq, Repr

/-- An error object with its optional boxed cause chain: a `StoreError`
(kind plus `Option<Box<Error>>`), a `ParserError`, the opaque error a
failing hook reports (the hook types are not in the source snapshot, so
the hook error carries just the hook name), or an I/O error. -/
inductive ErrObj where
  | store (kind : StoreErrorKind) (cause : Option ErrObj)
  | parser (kind : ParserErrorKind) (cause : Option ErrObj)
  | hookError (hookName : String)
  | io (descr : String)

/-- `StoreError::err_type()`: the top-level `StoreErrorKind` of an error
object, when it is a `StoreError` at all. -/
def ErrObj.err_type : ErrObj → Option StoreErrorKind
  | .store k _ => some k
  | _ => none

/-- Outcome of running a piece of Rust code: a value, an `Err`, or a panic
(out-of-bounds indexing, failed assertion). -/
inductive PRes (α : Type) where
  | ok (val : α)
  | err (e : ErrObj)
  | panic

/-- Whether a `PRes` is a success. -/
def PRes.isOk {α : Type} : PRes α → Bool
  | .ok _ => true
  | _ => false

/-- The TOML value tree (`toml::Value` of the toml 0.1 crate used by the
source): strings, integers, floats (carried as their `f64` bit pattern),
booleans, datetimes (carried as their string form), arrays, and tables.
Tables are `BTreeMap<String, Value>`, modelled as association lists. -/
inductive Value where
  | str (s : String)
  | int (i : Int)
  | float (bits : Nat)
  | boolean (b : Bool)
  | datetime (d : String)
  | array (elems : List Value)
  | table (pairs : List (String × Value))

/-- `toml::Table`. -/
abbrev Table := List (String × Value)

/-- `BTreeMap::get`: the value stored at a key. -/
def tableGet (t : Table) (k : String) : Option Value :=
  match t with
  | [] => none
  | (k', v) :: rest => if k' = k then some v else tableGet rest k

/-- `BTreeMap::contains_key`. -/
def tableContains (t : Table) (k : String) : Bool :=
  (tableGet t k).isSome

/-- `BTreeMap::insert`: store a value at a key, returning the previous
value if any.  When the key is present the binding is replaced in place;
otherwise it is appended (the map's key order is not observed by any
property proved here). -/
def tableInsert (t : Table) (k : String) (v : Value) : Table × Option Value :=
  match t with
  | [] => ([(k, v)], none)
  | (k', v') :: rest =>
      if k' = k then ((k, v) :: rest, some v')
      else
        let r := tableInsert rest k v
        ((k', v') :: r.1, r.2)

/-- In-place update of an existing key's value, used to write a mutated
child back into its parent table after a `&mut` walk. -/
def tableSet (t : Table) (k : String) (v : Value) : Table :=
  (tableInsert t k v).1

/-- A token of the header path accessor language (`Token` in store.rs):
either a map key or an array index. -/
inductive Token where
  | key (s : String)
  | index (i : Nat)
deriving DecidableEq, Repr

/-- `usize::from_str`: an optional leading plus sign, then decimal digits,
rejecting the empty string and values that overflow 64 bits. -/
def parseUsize (cs : List Char) : Option Nat :=
  let digits := match cs with
    | '+' :: rest => rest
    | other => other
  if digits = [] then none
  else if digits.all (fun c => c.isDigit) then
    let n := digits.foldl (fun acc c => acc * 10 + (c.toNat - 48)) 0
    if n < 2 ^ 64 then some n else none
  else none

/-- Split a character list on a separator character; like Rust's
`str::split`, always yields at least one (possibly empty) piece. -/
def splitChar (sep : Char) : List Char → List (List Char)
  | [] => [[]]
  | c :: rest =>
      let r := splitChar sep rest
      if c = sep then [] :: r
      else
        match r with
        | [] => [[c]]
        | p :: ps => (c :: p) :: ps

/-- `EntryHeader::tokenize`: split the spec string on the separator and
turn each piece into an index token when it parses as a `usize`, and a key
token otherwise.  The Rust function returns `Result<Vec<Token>>` but every
piece is mapped to `Ok`, so it never fails; the model drops the wrapper. -/
def EntryHeader.tokenize (spec : String) (splitchr : Char) : List Token :=
  (splitChar splitchr spec.data).map fun piece =>
    match parseUsize piece with
    | some i => Token.index i
    | none => Token.key (String.mk piece)

/-- `EntryHeader::extract_from_table`: look a key up in a table value.
A missing key is `HeaderKeyNotFound`; a non-table is
`HeaderPathTypeFailure`. -/
def EntryHeader.extract_from_table (v : Value) (s : String) : PRes Value :=
  match v with
  | .table t =>
      match tableGet t s with
      | some x => .ok x
      | none => .err (.store .HeaderKeyNotFound none)
  | _ => .err (.store .HeaderPathTypeFailure none)

/-- `EntryHeader::extract_from_array`: index into an array value.  The
source guards with `a.len() < i`, so `i == a.len()` falls through to
`&mut a[i]`, which is an out-of-bounds `Vec` index: a panic. -/
def EntryHeader.extract_from_array (v : Value) (i : Nat) : PRes Value :=
  match v with
  | .array a =>
      if a.length < i then .err (.store .HeaderKeyNotFound none)
      else
        match a.get? i with
        | some x => .ok x
        | none => .panic
  | _ => .err (.store .HeaderPathTypeFailure none)

/-- `EntryHeader::extract`. -/
def EntryHeader.extract (v : Value) (tok : Token) : PRes Value :=
  match tok with
  | .key s => EntryHeader.extract_from_table v s
  | .index i => EntryHeader.extract_from_array v i

/-- `EntryHeader::walk_header`, read-only form: follow the tokens down the
value tree (the source's `walk_iter` recursion). -/
def EntryHeader.walk_header (v : Value) : List Token → PRes Value
  | [] => .ok v
  | tok :: rest =>
      match EntryHeader.extract v tok with
      | .ok child => EntryHeader.walk_header child rest
      | .err e => .err e
      | .panic => .panic

/-- Write a new child value back into a parent at a token position.  Only
called after `extract` succeeded at that token, so the position exists. -/
def EntryHeader.putChild (v : Value) (tok : Token) (child : Value) : Value :=
  match v, tok with
  | .table t, .key s => .table (tableSet t s child)
  | .array a, .index i => .array (a.set i child)
  | other, _ => other

/-- `EntryHeader::walk_header` in its `&mut` role: walk to the value the
tokens name, apply a mutation there, and write the result back along the
path.  Models the source's mutation through the returned `&mut Value`. -/
def EntryHeader.walk_apply {α : Type} (v : Value) (tokens : List Token)
    (f : Value → PRes (Value × α)) : PRes (Value × α) :=
  match tokens with
  | [] => f v
  | tok :: rest =>
      match EntryHeader.extract v tok with
      | .ok child =>
          match EntryHeader.walk_apply child rest f with
          | .ok (child', a) => .ok (EntryHeader.putChild v tok child', a)
          | .err e => .err e
          | .panic => .panic
      | .err e => .err e
      | .panic => .panic

/-- `Vec::swap_remove`: remove the element at `i`, replacing it with the
last element.  `none` models the panic on an out-of-bounds index. -/
def swap_remove (l : List Value) (i : Nat) : Option (Value × List Value) :=
  match l.get? i with
  | none => none
  | some x => some (x, (l.set i ((l.getLast?).getD x)).dropLast)

/-- The body of `EntryHeader::read_with_sep` after tokenization: walk all
tokens; a `HeaderKeyNotFound` error becomes `Ok(None)`. -/
def EntryHeader.read_tokens (header : Value) (tokens : List Token) :
    PRes (Option Value) :=
  match EntryHeader.walk_header header tokens with
  | .ok v => .ok (some v)
  | .err e =>
      match e.err_type with
      | some .HeaderKeyNotFound => .ok none
      | _ => .err e
  | .panic => .panic

/-- `EntryHeader::read_with_sep`. -/
def EntryHeader.read_with_sep (header : Value) (spec : String)
    (splitchr : Char) : PRes (Option Value) :=
  EntryHeader.read_tokens header (EntryHeader.tokenize spec splitchr)

/-- `EntryHeader::read`: the default separator is a dot. -/
def EntryHeader.read (header : Value) (spec : String) : PRes (Option Value) :=
  EntryHeader.read_with_sep header spec '.'

/-- The body of `EntryHeader::set_with_sep` after tokenization: walk to
the parent of the last token and place the value there, overwriting.  For
an array destination the value is pushed and, when `a.len() > i` holds
after the push, the element at `i` is swap-removed and returned. -/
def EntryHeader.set_tokens (header : Value) (tokens : List Token)
    (v : Value) : PRes (Value × Option Value) :=
  match tokens.getLast? with
  | none => .err (.store .HeaderPathSyntaxError none)
  | some destination =>
      EntryHeader.walk_apply header tokens.dropLast fun parent =>
        match destination with
        | .key s =>
            match parent with
            | .table t =>
                let r := tableInsert t s v
                .ok (.table r.1, r.2)
            | _ => .err (.store .HeaderPathTypeFailure none)
        | .index i =>
            match parent with
            | .array a =>
                let a' := a ++ [v]
                if a'.length > i then
                  match swap_remove a' i with
                  | some (old, a'') => .ok (.array a'', some old)
                  | none => .panic
                else .ok (.array a', none)
            | _ => .err (.store .HeaderPathTypeFailure none)

/-- `EntryHeader::set_with_sep`. -/
def EntryHeader.set_with_sep (header : Value) (spec : String) (sep : Char)
    (v : Value) : PRes (Value × Option Value) :=
  EntryHeader.set_tokens header (EntryHeader.tokenize spec sep) v

/-- `EntryHeader::set`. -/
def EntryHeader.set (header : Value) (spec : String) (v : Value) :
    PRes (Value × Option Value) :=
  EntryHeader.set_with_sep header spec '.' v

/-- The body of `EntryHeader::insert_with_sep` after tokenization: walk to
the parent; if `extract` finds a value at the destination return
`Ok(false)` without changing anything (and propagate its panic at an
index equal to the array length); otherwise insert.  For an array
destination the value is pushed and, when `a.len() < i` holds after the
push, the source calls `swap_remove(i)` with `i` past the end: a panic. -/
def EntryHeader.insert_tokens (header : Value) (tokens : List Token)
    (v : Value) : PRes (Value × Bool) :=
  match tokens.getLast? with
  | none => .err (.store .HeaderPathSyntaxError none)
  | some destination =>
      EntryHeader.walk_apply header tokens.dropLast fun parent =>
        match EntryHeader.extract parent destination with
        | .ok _ => .ok (parent, false)
        | .panic => .panic
        | .err _ =>
            match destination with
            | .key s =>
                match parent with
                | .table t => .ok (.table (tableInsert t s v).1, true)
                | _ => .err (.store .HeaderPathTypeFailure none)
            | .index i =>
                match parent with
                | .array a =>
                    let a' := a ++ [v]
                    if a'.length < i then .panic
                    else .ok (.array a', true)
                | _ => .err (.store .HeaderPathTypeFailure none)

/-- `EntryHeader::insert_with_sep`. -/
def EntryHeader.insert_with_sep (header : Value) (spec : String) (sep : Char)
    (v : Value) : PRes (Value × Bool) :=
  EntryHeader.insert_tokens header (EntryHeader.tokenize spec sep) v

/-- `EntryHeader::insert`. -/
def EntryHeader.insert (header : Value) (spec : String) (v : Value) :
    PRes (Value × Bool) :=
  EntryHeader.insert_with_sep header spec '.' v

/-- The crate version baked into headers by the `version!` macro. -/
def imagVersion : String := "0.0.3"

/-- `build_default_header`: the skeleton `{ imag = { links = [], version =
<crate version> } }` (a `BTreeMap` iterates keys sorted, so `links`
precedes `version`). -/
def build_default_header : Value :=
  .table [( "imag", .table [( "links", .array []), ( "version", .str imagVersion)])]

/-- `has_main_section`: the base table holds `imag` and it is a table. -/
def has_main_section (t : Table) : Bool :=
  tableContains t "imag" &&
    match tableGet t "imag" with
    | some (.table _) => true
    | some _ => false
    | none => false

/-- `has_imag_version_in_main_section`, parameterized by the external
semver crate's parse success predicate `sv`.  The source calls
`t.get( "imag").unwrap()`; its callers guard with `has_main_section`, so
the missing-key branch (a panic in Rust) is unreachable and modelled as
`false`. -/
def has_imag_version_in_main_section (sv : String → Bool) (t : Table) : Bool :=
  match tableGet t "imag" with
  | some (.table sec) =>
      match tableGet sec "version" with
      | some (.str s) => sv s
      | some _ => false
      | none => false
  | _ => false

/-- `has_only_tables`: every top-level value of the base table is a table. -/
def has_only_tables (t : Table) : Bool :=
  t.all fun p => match p.2 with | .table _ => true | _ => false

/-- `verify_header`: the three schema checks in order.  Each failure is a
`ParserError` converted through `From<ParserError> for StoreError`, which
wraps it under the `MalformedEntry` kind. -/
def verify_header (sv : String → Bool) (t : Table) : PRes Unit :=
  if !has_main_section t then
    .err (.store .MalformedEntry (some (.parser .MissingMainSection none)))
  else if !has_imag_version_in_main_section sv t then
    .err (.store .MalformedEntry (some (.parser .MissingVersionInfo none)))
  else if !has_only_tables t then
    .err (.store .MalformedEntry (some (.parser .NonTableInBaseTable none)))
  else .ok ()

/-- `EntryHeader::verify`: verify the wrapped root value, which must be a
table. -/
def EntryHeader.verify (sv : String → Bool) (header : Value) : PRes Unit :=
  match header with
  | .table t => verify_header sv t
  | _ => .err (.store .HeaderTypeFailure none)

/-- `verify_header_consistency`: the `EntryResult` form used during
parsing; a failing `verify_header` is wrapped as a `HeaderInconsistency`
parser error whose cause is the store error. -/
def verify_header_consistency (sv : String → Bool) (t : Table) :
    Except ErrObj Table :=
  match verify_header sv t with
  | .ok _ => .ok t
  | .err e => .error (.parser .HeaderInconsistency (some e))
  | .panic => .error (.parser .HeaderInconsistency none)

/-- Modelled from the spec: a serialization token of the external toml
crate's deterministic printer/parser pair, which is not part of this
repository.  The spec requires only that writing "re-serializes the
Header's Structured Value tree deterministically" and that parsing
inverts it, so the codec is modelled as a token stream (length-prefixed
containers) rendered to characters. -/
inductive Tok where
  | tstr (s : String)
  | tint (i : Int)
  | tflt (bits : Nat)
  | tbool (b : Bool)
  | tdate (d : String)
  | tarr (n : Nat)
  | ttab (n : Nat)
  | tkey (k : String)

mutual

/-- Modelled from the spec: serialize a value to the token stream. -/
def serVal : Value → List Tok
  | .str s => [.tstr s]
  | .int i => [.tint i]
  | .float b => [.tflt b]
  | .boolean b => [.tbool b]
  | .datetime d => [.tdate d]
  | .array a => .tarr a.length :: serList a
  | .table t => .ttab t.length :: serRows t

/-- Serialize the elements of an array in order. -/
def serList : List Value → List Tok
  | [] => []
  | v :: vs => serVal v ++ serList vs

/-- Serialize the rows of a table in order. -/
def serRows : List (String × Value) → List Tok
  | [] => []
  | (k, v) :: rest => .tkey k :: (serVal v ++ serRows rest)

end

mutual

/-- Modelled from the spec: parse one value off the front of a token
stream.  The first argument is recursion fuel. -/
def parseVal : Nat → List Tok → Option (Value × List Tok)
  | 0, _ => none
  | _ + 1, [] => none
  | f + 1, t :: ts =>
      match t with
      | .tstr s => some (.str s, ts)
      | .tint i => some (.int i, ts)
      | .tflt b => some (.float b, ts)
      | .tbool b => some (.boolean b, ts)
      | .tdate d => some (.datetime d, ts)
      | .tarr n =>
          match parseMany f n ts with
          | some (l, r) => some (.array l, r)
          | none => none
      | .ttab n =>
          match parseRows f n ts with
          | some (l, r) => some (.table l, r)
          | none => none
      | .tkey _ => none

/-- Parse `n` consecutive values. -/
def parseMany : Nat → Nat → List Tok → Option (List Value × List Tok)
  | _, 0, ts => some ([], ts)
  | 0, _ + 1, _ => none
  | f + 1, n + 1, ts =>
      match parseVal f ts with
      | some (v, r) =>
          match parseMany f n r with
          | some (l, r') => some (v :: l, r')
          | none => none
      | none => none

/-- Parse `n` consecutive key/value rows. -/
def parseRows : Nat → Nat → List Tok → Option (Table × List Tok)
  | _, 0, ts => some ([], ts)
  | 0, _ + 1, _ => none
  | f + 1, n + 1, .tkey k :: ts =>
      match parseVal f ts with
      | some (v, r) =>
          match parseRows f n r with
          | some (l, r') => some ((k, v) :: l, r')
          | none => none
      | none => none
  | _ + 1, _ + 1, _ => none

end

mutual

/-- Depth of the parse recursion needed for a value. -/
def depthVal : Value → Nat
  | .array a => 1 + depthMany a
  | .table t => 1 + depthRows t
  | _ => 1

/-- Depth needed for a list of values. -/
def depthMany : List Value → Nat
  | [] => 0
  | v :: vs => 1 + max (depthVal v) (depthMany vs)

/-- Depth needed for the rows of a table. -/
def depthRows : List (String × Value) → Nat
  | [] => 0
  | (_, v) :: rest => 1 + max (depthVal v) (depthRows rest)

end

/-- Escape a character list so that it contains no newline: backslash and
newline are written as two-character escapes, mirroring the real TOML
printer's string escaping. -/
def escChars : List Char → List Char
  | [] => []
  | c :: rest =>
      if c = '\\' then '\\' :: '\\' :: escChars rest
      else if c = '\n' then '\\' :: 'n' :: escChars rest
      else c :: escChars rest

/-- Invert `escChars`. -/
def unescChars : List Char → List Char
  | [] => []
  | [c] => [c]
  | c :: d :: rest =>
      if c = '\\' then
        if d = 'n' then '\n' :: unescChars rest
        else if d = '\\' then '\\' :: unescChars rest
        else c :: unescChars (d :: rest)
      else c :: unescChars (d :: rest)

/-- A unary run of `l` characters, used as a self-delimiting number. -/
def unary (n : Nat) : List Char := List.replicate n 'l'

/-- Count the leading `l` characters. -/
def countL : List Char → Nat × List Char
  | [] => (0, [])
  | c :: rest =>
      if c = 'l' then
        let r := countL rest
        (r.1 + 1, r.2)
      else (0, c :: rest)

/-- Render one token to characters: a tag character, a unary number, a
separator, and for string-carrying tokens the escaped payload. -/
def renderTok : Tok → List Char
  | .tstr s => 'S' :: (unary (escChars s.data).length ++ ':' :: escChars s.data)
  | .tint (.ofNat n) => 'I' :: '+' :: (unary n ++ [';'])
  | .tint (.negSucc n) => 'I' :: '-' :: (unary n ++ [';'])
  | .tflt b => 'F' :: (unary b ++ [';'])
  | .tbool b => if b then ['B', 't'] else ['B', 'f']
  | .tdate d => 'D' :: (unary (escChars d.data).length ++ ':' :: escChars d.data)
  | .tarr n => 'A' :: (unary n ++ [';'])
  | .ttab n => 'T' :: (unary n ++ [';'])
  | .tkey k => 'K' :: (unary (escChars k.data).length ++ ':' :: escChars k.data)

/-- Render a token stream to characters. -/
def flattenToks (toks : List Tok) : List Char :=
  (toks.map renderTok).flatten

/-- Read a unary length, a colon, and that many payload characters. -/
def parseStringPayload (cs : List Char) : Option (String × List Char) :=
  let r := countL cs
  match r.2 with
  | ':' :: rest =>
      if r.1 ≤ rest.length then
        some (String.mk (unescChars (rest.take r.1)), rest.drop r.1)
      else none
  | _ => none

/-- Read a unary number followed by a semicolon. -/
def parseNatPayload (cs : List Char) : Option (Nat × List Char) :=
  let r := countL cs
  match r.2 with
  | ';' :: rest => some (r.1, rest)
  | _ => none

/-- Parse one rendered token off the front of a character list. -/
def parseOneTok : List Char → Option (Tok × List Char)
  | [] => none
  | c :: cs =>
      if c = 'S' then (parseStringPayload cs).map fun p => (.tstr p.1, p.2)
      else if c = 'D' then (parseStringPayload cs).map fun p => (.tdate p.1, p.2)
      else if c = 'K' then (parseStringPayload cs).map fun p => (.tkey p.1, p.2)
      else if c = 'I' then
        match cs with
        | sgn :: cs' =>
            if sgn = '+' then (parseNatPayload cs').map fun p => (.tint (Int.ofNat p.1), p.2)
            else if sgn = '-' then (parseNatPayload cs').map fun p => (.tint (Int.negSucc p.1), p.2)
            else none
        | [] => none
      else if c = 'F' then (parseNatPayload cs).map fun p => (.tflt p.1, p.2)
      else if c = 'A' then (parseNatPayload cs).map fun p => (.tarr p.1, p.2)
      else if c = 'T' then (parseNatPayload cs).map fun p => (.ttab p.1, p.2)
      else if c = 'B' then
        match cs with
        | 't' :: cs' => some (.tbool true, cs')
        | 'f' :: cs' => some (.tbool false, cs')
        | _ => none
      else none

/-- Parse a whole character list to a token stream; the fuel argument is
an upper bound on the number of tokens. -/
def toksOfCharsGo : Nat → List Char → Option (List Tok)
  | _, [] => some []
  | 0, _ :: _ => none
  | f + 1, c :: cs =>
      match parseOneTok (c :: cs) with
      | some (t, rest) =>
          match toksOfCharsGo f rest with
          | some ts => some (t :: ts)
          | none => none
      | none => none

/-- Parse a whole character list to a token stream. -/
def toksOfChars (cs : List Char) : Option (List Tok) :=
  toksOfCharsGo cs.length cs

/-- Modelled from the spec: `toml::encode_str`.  The real printer starts
with a newline before the first `[section]` header, ends with a newline,
and never emits a line consisting of three dashes (section headers are
bracketed and string contents are escaped); the model keeps exactly those
properties by framing the one-line token rendering in newlines. -/
def toml_encode (v : Value) : String :=
  String.mk ('\n' :: (flattenToks (serVal v) ++ ['\n']))

/-- Modelled from the spec: `toml::Parser::parse`, the inverse of
`toml_encode`, returning the parsed base table. -/
def toml_decode (s : String) : Option Table :=
  match s.data with
  | '\n' :: rest =>
      if rest.getLast? = some '\n' then
        match toksOfChars rest.dropLast with
        | some toks =>
            match parseVal (2 * toks.length + 1) toks with
            | some (.table t, []) => some t
            | _ => none
        | none => none
      else none
  | _ => none

theorem string_mk_data (s : String) : String.mk s.data = s := rfl

theorem escChars_eq_nil {s : List Char} (h : escChars s = []) : s = [] := by
  cases s with
  | nil => rfl
  | cons c rest =>
    simp only [escChars] at h
    split at h <;> first | simp at h | (split at h <;> simp at h)

theorem unescChars_cons_of_ne (c : Char) (X : List Char) (h : c ≠ '\\') :
    unescChars (c :: X) = c :: unescChars X := by
  cases X with
  | nil => rfl
  | cons d rest => simp [unescChars, h]

theorem unescChars_escChars (s : List Char) : unescChars (escChars s) = s := by
  induction s with
  | nil => rfl
  | cons c rest ih =>
    by_cases h1 : c = '\\'
    · subst h1
      simp [escChars, unescChars, ih]
    · by_cases h2 : c = '\n'
      · subst h2
        simp [escChars, h1, unescChars, ih]
      · simp only [escChars, if_neg h1, if_neg h2]
        rw [unescChars_cons_of_ne c _ h1, ih]

theorem newline_not_mem_escChars (s : List Char) : '\n' ∉ escChars s := by
  induction s with
  | nil => simp [escChars]
  | cons c rest ih =>
    by_cases h1 : c = '\\'
    · simp [escChars, h1, ih]
    · by_cases h2 : c = '\n'
      · simp [escChars, h1, h2, ih]
      · simp [escChars, h1, h2, ih]
        exact fun h => absurd h.symm h2

theorem countL_unary (n : Nat) (rest : List Char)
    (h : rest.head? ≠ some 'l') : countL (unary n ++ rest) = (n, rest) := by
  induction n with
  | zero =>
    cases rest with
    | nil => rfl
    | cons c r =>
      have hc : c ≠ 'l' := by simpa using h
      simp [unary, countL, hc]
  | succ n ih => simp [unary, List.replicate_succ, countL] at ih ⊢; simp [ih]

theorem parseStringPayload_render (d rest : List Char) :
    parseStringPayload (unary (escChars d).length ++ ':' :: (escChars d ++ rest)) =
      some (String.mk d, rest) := by
  have hc : (':' :: (escChars d ++ rest)).head? ≠ some 'l' := by simp
  have h1 : (escChars d).length ≤ (escChars d ++ rest).length := by
    simp [List.length_append]
  simp only [parseStringPayload, countL_unary _ _ hc, if_pos h1,
    List.take_left' rfl, List.drop_left' rfl, unescChars_escChars, string_mk_data]

theorem parseNatPayload_render (n : Nat) (rest : List Char) :
    parseNatPayload (unary n ++ ';' :: rest) = some (n, rest) := by
  have hc : (';' :: rest).head? ≠ some 'l' := by simp
  simp only [parseNatPayload, countL_unary _ _ hc]

theorem parseOneTok_render (t : Tok) (rest : List Char) :
    parseOneTok (renderTok t ++ rest) = some (t, rest) := by
  cases t with
  | tstr s => simp [renderTok, parseOneTok, parseStringPayload_render]
  | tdate s => simp [renderTok, parseOneTok, parseStringPayload_render]
  | tkey s => simp [renderTok, parseOneTok, parseStringPayload_render]
  | tint i => cases i <;> simp [renderTok, parseOneTok, parseNatPayload_render]
  | tflt b => simp [renderTok, parseOneTok, parseNatPayload_render]
  | tarr n => simp [renderTok, parseOneTok, parseNatPayload_render]
  | ttab n => simp [renderTok, parseOneTok, parseNatPayload_render]
  | tbool b => cases b <;> simp [renderTok, parseOneTok]

theorem renderTok_ne_nil (t : Tok) : renderTok t ≠ [] := by
  cases t with
  | tint i => cases i <;> simp [renderTok]
  | tbool b => cases b <;> simp [renderTok]
  | _ => simp [renderTok]

theorem flattenToks_nil : flattenToks [] = [] := rfl

theorem flattenToks_cons (t : Tok) (ts : List Tok) :
    flattenToks (t :: ts) = renderTok t ++ flattenToks ts := by
  simp [flattenToks]

theorem length_le_flattenToks (toks : List Tok) :
    toks.length ≤ (flattenToks toks).length := by
  induction toks with
  | nil => simp [flattenToks]
  | cons t ts ih =>
    have h1 : 0 < (renderTok t).length :=
      List.length_pos.mpr (renderTok_ne_nil t)
    simp only [flattenToks_cons, List.length_append, List.length_cons]
    omega

theorem toksOfCharsGo_flatten (f : Nat) :
    ∀ toks : List Tok, toks.length ≤ f →
      toksOfCharsGo f (flattenToks toks) = some toks := by
  induction f with
  | zero =>
    intro toks h
    have : toks = [] := by
      cases toks with
      | nil => rfl
      | cons t ts => simp at h
    subst this
    rfl
  | succ f ih =>
    intro toks h
    cases toks with
    | nil => rfl
    | cons t ts =>
      rcases hr : renderTok t with _ | ⟨c, cs⟩
      · exact absurd hr (renderTok_ne_nil t)
      · rw [flattenToks_cons, hr, List.cons_append]
        have hp : parseOneTok (c :: (cs ++ flattenToks ts)) = some (t, flattenToks ts) := by
          rw [← List.cons_append, ← hr, parseOneTok_render]
        simp only [toksOfCharsGo, hp]
        rw [ih ts (by simpa using h)]

theorem toksOfChars_flatten (toks : List Tok) :
    toksOfChars (flattenToks toks) = some toks :=
  toksOfCharsGo_flatten _ toks (length_le_flattenToks toks)

theorem parse_ser_all (f : Nat) :
    (∀ (v : Value) (rest : List Tok), depthVal v ≤ f →
       parseVal f (serVal v ++ rest) = some (v, rest)) ∧
    (∀ (l : List Value) (rest : List Tok), depthMany l ≤ f →
       parseMany f l.length (serList l ++ rest) = some (l, rest)) ∧
    (∀ (t : Table) (rest : List Tok), depthRows t ≤ f →
       parseRows f t.length (serRows t ++ rest) = some (t, rest)) := by
  induction f with
  | zero =>
    refine ⟨fun v rest h => ?_, fun l rest h => ?_, fun t rest h => ?_⟩
    · exact absurd h (by cases v <;> simp [depthVal])
    · cases l with
      | nil => rfl
      | cons v vs => simp [depthMany] at h
    · cases t with
      | nil => rfl
      | cons p ps => rcases p with ⟨k, v⟩; simp [depthRows] at h
  | succ f ih =>
    refine ⟨fun v rest h => ?_, fun l rest h => ?_, fun t rest h => ?_⟩
    · cases v with
      | array a =>
          have ha : depthMany a ≤ f := by simp [depthVal] at h; omega
          simp only [serVal, List.cons_append, parseVal, ih.2.1 a rest ha]
      | table t =>
          have ht : depthRows t ≤ f := by simp [depthVal] at h; omega
          simp only [serVal, List.cons_append, parseVal, ih.2.2 t rest ht]
      | str s => rfl
      | int i => rfl
      | float b => rfl
      | boolean b => rfl
      | datetime d => rfl
    · cases l with
      | nil => rfl
      | cons v vs =>
          have h1 : depthVal v ≤ f := by
            simp [depthMany] at h; omega
          have h2 : depthMany vs ≤ f := by
            simp [depthMany] at h; omega
          simp only [serList, List.length_cons, List.append_assoc, List.append_eq,
            parseMany, ih.1 v _ h1, ih.2.1 vs rest h2]
    · cases t with
      | nil => rfl
      | cons p ps =>
          rcases p with ⟨k, v⟩
          have h1 : depthVal v ≤ f := by
            simp [depthRows] at h; omega
          have h2 : depthRows ps ≤ f := by
            simp [depthRows] at h; omega
          simp only [serRows, List.length_cons, List.cons_append, List.append_assoc,
            List.append_eq, parseRows, ih.1 v _ h1, ih.2.2 ps rest h2]

mutual

theorem depthVal_le : ∀ v : Value, depthVal v ≤ 2 * (serVal v).length
  | .str s => by simp [depthVal, serVal]
  | .int i => by simp [depthVal, serVal]
  | .float b => by simp [depthVal, serVal]
  | .boolean b => by simp [depthVal, serVal]
  | .datetime d => by simp [depthVal, serVal]
  | .array a => by
      have h := depthMany_le a
      simp only [depthVal, serVal, List.length_cons]
      omega
  | .table t => by
      have h := depthRows_le t
      simp only [depthVal, serVal, List.length_cons]
      omega

theorem depthMany_le : ∀ l : List Value, depthMany l ≤ 2 * (serList l).length + 1
  | [] => by simp [depthMany, serList]
  | v :: vs => by
      have h1 := depthVal_le v
      have h2 := depthMany_le vs
      have h3 : 0 < (serVal v).length := by
        cases v <;> simp [serVal]
      simp only [depthMany, serList, List.length_append]
      have h4 : max (depthVal v) (depthMany vs) ≤
          2 * ((serVal v).length + (serList vs).length) := by
        refine max_le ?_ ?_ <;> omega
      omega

theorem depthRows_le : ∀ t : Table, depthRows t ≤ 2 * (serRows t).length + 1
  | [] => by simp [depthRows, serRows]
  | (k, v) :: ps => by
      have h1 := depthVal_le v
      have h2 := depthRows_le ps
      simp only [depthRows, serRows, List.length_cons, List.length_append]
      have h4 : max (depthVal v) (depthRows ps) ≤
          2 * ((serVal v).length + (serRows ps).length) + 1 := by
        refine max_le ?_ ?_ <;> omega
      omega

end

/-- The spec-modelled TOML codec round-trips: decoding the encoding of any
base table returns exactly that table. -/
theorem toml_decode_encode (t : Table) :
    toml_decode (toml_encode (.table t)) = some t := by
  have hlast : (flattenToks (serVal (.table t)) ++ ['\n']).getLast? = some '\n' := by
    simp
  have hdrop : (flattenToks (serVal (.table t)) ++ ['\n']).dropLast =
      flattenToks (serVal (.table t)) := by
    simp
  have htoks := toksOfChars_flatten (serVal (.table t))
  have hdepth : depthVal (.table t) ≤ 2 * (serVal (.table t)).length + 1 := by
    have := depthVal_le (.table t)
    omega
  have hparse := (parse_ser_all (2 * (serVal (.table t)).length + 1)).1 (.table t) [] hdepth
  rw [List.append_nil] at hparse
  simp only [toml_encode, toml_decode, hlast, hdrop, htoks, hparse]
  simp

theorem newline_not_mem_renderTok (t : Tok) : '\n' ∉ renderTok t := by
  cases t with
  | tint i => cases i <;> simp [renderTok, unary, List.mem_replicate]
  | tbool b => cases b <;> simp [renderTok]
  | tflt b => simp [renderTok, unary, List.mem_replicate]
  | tarr n => simp [renderTok, unary, List.mem_replicate]
  | ttab n => simp [renderTok, unary, List.mem_replicate]
  | tstr s =>
      simp [renderTok, unary, List.mem_replicate]
      exact fun h => (newline_not_mem_escChars _) h
  | tdate s =>
      simp [renderTok, unary, List.mem_replicate]
      exact fun h => (newline_not_mem_escChars _) h
  | tkey s =>
      simp [renderTok, unary, List.mem_replicate]
      exact fun h => (newline_not_mem_escChars _) h

theorem newline_not_mem_flattenToks (toks : List Tok) :
    '\n' ∉ flattenToks toks := by
  induction toks with
  | nil => simp [flattenToks]
  | cons t ts ih =>
    rw [flattenToks_cons]
    simp only [List.mem_append]
    rintro (h | h)
    · exact newline_not_mem_renderTok t h
    · exact ih h

theorem flattenToks_serVal_table (t : Table) :
    flattenToks (serVal (.table t)) =
      'T' :: ((unary t.length ++ [';']) ++ flattenToks (serRows t)) := by
  simp [serVal, flattenToks_cons, renderTok]

/-- `StoreId` (`type StoreId = PathBuf` in storeid.rs): a path, modelled
as its list of segments. -/
abbrev StoreId := List String

/-- An `Entry` of the store: location, header and content. -/
structure Entry where
  location : StoreId
  header : Value
  content : String

/-- `Entry::new`: default header skeleton and empty content. -/
def Entry.new (loc : StoreId) : Entry :=
  ⟨loc, build_default_header, ""⟩

/-- `Entry::to_str`: `format!( "---{header}---\n{content}")` with the
header re-serialized by `toml::encode_str`. -/
def Entry.to_str (e : Entry) : String :=
  "---" ++ toml_encode e.header ++ "---\n" ++ e.content

/-- `^` of the `(?m)` regex: position `p` is at a line start. -/
def lineStart (cs : List Char) (p : Nat) : Bool :=
  p = 0 || cs.get? (p - 1) = some '\n'

/-- Three dashes at position `p`. -/
def dashesAt (cs : List Char) (p : Nat) : Bool :=
  cs.get? p = some '-' && cs.get? (p + 1) = some '-' && cs.get? (p + 2) = some '-'

/-- A position where `^---$` can match: line start, three dashes, then a
line end (`$` matches before a newline or at the end of input). -/
def isOpener (cs : List Char) (p : Nat) : Bool :=
  lineStart cs p && dashesAt cs p &&
    (cs.get? (p + 3) = none || cs.get? (p + 3) = some '\n')

/-- A position where `^---$\n` can match: line start, three dashes, then
a literal newline. -/
def isCloser (cs : List Char) (q : Nat) : Bool :=
  lineStart cs q && dashesAt cs q && cs.get? (q + 3) = some '\n'

/-- First index `i ≤ j < i + n` satisfying `f`, scanning upward. -/
def scanFirst (f : Nat → Bool) : Nat → Nat → Option Nat
  | _, 0 => none
  | i, n + 1 => if f i then some i else scanFirst f (i + 1) n

/-- Last index `i ≤ j < i + n` satisfying `f`. -/
def scanLast (f : Nat → Bool) : Nat → Nat → Option Nat
  | _, 0 => none
  | i, n + 1 =>
      match scanLast f (i + 1) n with
      | some q => some q
      | none => if f i then some i else none

/-- The last closer position at or after `start`. -/
def lastCloserFrom (cs : List Char) (start : Nat) : Option Nat :=
  scanLast (fun q => start ≤ q && isCloser cs q) 0 cs.length

/-- The capture semantics of the anchored pattern
`(?smx) ^---$ (?P<header>.*) ^---$\n (?P<content>.*)` used by
`Entry::from_str`: the match starts at the leftmost `^---$` from which
the rest of the pattern can match, the greedy `header` group runs to the
last `^---$\n`, and `content` is everything after it. -/
def findSplit (cs : List Char) : Option (List Char × List Char) :=
  match scanFirst
      (fun p => isOpener cs p && (lastCloserFrom cs (p + 3)).isSome)
      0 cs.length with
  | none => none
  | some p =>
      match lastCloserFrom cs (p + 3) with
      | none => none
      | some q => some ((cs.drop (p + 3)).take (q - (p + 3)), cs.drop (q + 4))

/-- `EntryHeader::parse`: run the TOML parser, then
`verify_header_consistency`. -/
def EntryHeader.parse (sv : String → Bool) (s : String) : Except ErrObj Value :=
  match toml_decode s with
  | none => .error (.parser .TOMLParserErrors none)
  | some t =>
      match verify_header_consistency sv t with
      | .ok t' => .ok (.table t')
      | .error e => .error e

/-- `Entry::from_str`: split the text with the anchored regex (no match
is `MalformedEntry`), parse the header capture (parser errors are wrapped
under `MalformedEntry` by `From<ParserError> for StoreError`), and build
the entry with the content capture. -/
def Entry.from_str (sv : String → Bool) (loc : StoreId) (s : String) : PRes Entry :=
  match findSplit s.data with
  | none => .err (.store .MalformedEntry none)
  | some (hdr, content) =>
      match EntryHeader.parse sv (String.mk hdr) with
      | .error pe => .err (.store .MalformedEntry (some pe))
      | .ok hv => .ok ⟨loc, hv, String.mk content⟩

/-- Whether a character list contains a line consisting of exactly three
dashes followed by a newline (the shape the greedy header capture can
latch onto inside the content). -/
def hasDashLine (cs : List Char) : Bool :=
  (List.range cs.length).any fun j =>
    (j = 0 || cs.get? (j - 1) = some '\n') && cs.get? j = some '-' &&
      cs.get? (j + 1) = some '-' && cs.get? (j + 2) = some '-' &&
      cs.get? (j + 3) = some '\n'

theorem scanFirst_zero (f : Nat → Bool) (n : Nat) (h0 : f 0 = true)
    (hn : 0 < n) : scanFirst f 0 n = some 0 := by
  cases n with
  | zero => omega
  | succ m => simp [scanFirst, h0]

theorem scanLast_none (f : Nat → Bool) :
    ∀ (n i : Nat), (∀ j, i ≤ j → j < i + n → f j = false) →
      scanLast f i n = none := by
  intro n
  induction n with
  | zero => intro i _; rfl
  | succ m ih =>
    intro i h
    have hrec : scanLast f (i + 1) m = none :=
      ih (i + 1) fun j hj1 hj2 => h j (by omega) (by omega)
    have hi : f i = false := h i (by omega) (by omega)
    simp [scanLast, hrec, hi]

theorem scanLast_eq (f : Nat → Bool) :
    ∀ (n i q : Nat), (∀ j, i ≤ j → j < i + n → f j = true → j = q) →
      i ≤ q → q < i + n → f q = true → scanLast f i n = some q := by
  intro n
  induction n with
  | zero => intro i q _ h1 h2 _; omega
  | succ m ih =>
    intro i q huniq h1 h2 hq
    by_cases hcase : q = i
    · subst hcase
      have hrec : scanLast f (q + 1) m = none := by
        apply scanLast_none
        intro j hj1 hj2
        by_contra hc
        have hj : f j = true := by revert hc; cases f j <;> simp
        have := huniq j (by omega) (by omega) hj
        omega
      simp [scanLast, hrec, hq]
    · have hrec : scanLast f (i + 1) m = some q :=
        ih (i + 1) q (fun j hj1 hj2 hf => huniq j (by omega) (by omega) hf)
          (by omega) (by omega) hq
      simp [scanLast, hrec]

/-- The character shape of `Entry::to_str` output: an opening dash line,
the newline-framed header rendering, the closing dash line, and the raw
content. -/
def fullChars (flat content : List Char) : List Char :=
  '-' :: '-' :: '-' :: '\n' ::
    (flat ++ ('\n' :: '-' :: '-' :: '-' :: '\n' :: content))

theorem fullChars_get_low (flat content : List Char) (j : Nat) :
    (fullChars flat content).get? (j + 4) =
      (flat ++ ('\n' :: '-' :: '-' :: '-' :: '\n' :: content)).get? j := rfl

theorem fullChars_get_flat (flat content : List Char) (j : Nat)
    (hj : j < flat.length) :
    (fullChars flat content).get? (j + 4) = flat.get? j := by
  rw [fullChars_get_low, List.get?_append hj]

theorem fullChars_get_rest (flat content : List Char) (k : Nat) :
    (fullChars flat content).get? (flat.length + k + 4) =
      ('\n' :: '-' :: '-' :: '-' :: '\n' :: content).get? k := by
  rw [fullChars_get_low, List.get?_append_right (by omega)]
  congr 1
  omega

theorem rest_get_content (content : List Char) (j : Nat) :
    ('\n' :: '-' :: '-' :: '-' :: '\n' :: content).get? (j + 5) =
      content.get? j := rfl

theorem fullChars_get_rest0 (flat content : List Char) :
    (fullChars flat content).get? (flat.length + 4) = some '\n' := by
  have h := fullChars_get_rest flat content 0
  simpa using h

theorem fullChars_closer_q0 (flat content : List Char) :
    isCloser (fullChars flat content) (5 + flat.length) = true := by
  have h0 : (fullChars flat content).get? (flat.length + 4) = some '\n' :=
    fullChars_get_rest0 flat content
  have h1 : (fullChars flat content).get? (flat.length + 1 + 4) = some '-' :=
    fullChars_get_rest flat content 1
  have h2 : (fullChars flat content).get? (flat.length + 2 + 4) = some '-' :=
    fullChars_get_rest flat content 2
  have h3 : (fullChars flat content).get? (flat.length + 3 + 4) = some '-' :=
    fullChars_get_rest flat content 3
  have h4 : (fullChars flat content).get? (flat.length + 4 + 4) = some '\n' :=
    fullChars_get_rest flat content 4
  unfold isCloser lineStart dashesAt
  rw [show 5 + flat.length - 1 = flat.length + 4 from by omega, h0]
  rw [show 5 + flat.length + 1 = flat.length + 2 + 4 from by omega, h2]
  rw [show 5 + flat.length + 2 = flat.length + 3 + 4 from by omega, h3]
  rw [show 5 + flat.length + 3 = flat.length + 4 + 4 from by omega, h4]
  rw [show 5 + flat.length = flat.length + 1 + 4 from by omega, h1]
  simp

theorem fullChars_closer_unique (flat content : List Char)
    (hnl : '\n' ∉ flat) (hhead : flat.get? 0 = some 'T')
    (hdl : hasDashLine content = false) :
    ∀ q, 3 ≤ q → isCloser (fullChars flat content) q = true →
      q = 5 + flat.length := by
  intro q hq3 hcl
  unfold isCloser lineStart dashesAt at hcl
  repeat rw [Bool.and_eq_true] at hcl
  obtain ⟨⟨hlsb, ⟨hd0b, hd1b⟩, hd2b⟩, hd3b⟩ := hcl
  have hd0 : (fullChars flat content).get? q = some '-' := of_decide_eq_true hd0b
  have hd1 : (fullChars flat content).get? (q + 1) = some '-' :=
    of_decide_eq_true hd1b
  have hd2 : (fullChars flat content).get? (q + 2) = some '-' :=
    of_decide_eq_true hd2b
  have hd3 : (fullChars flat content).get? (q + 3) = some '\n' :=
    of_decide_eq_true hd3b
  have hls : q = 0 ∨ (fullChars flat content).get? (q - 1) = some '\n' := by
    rw [Bool.or_eq_true] at hlsb
    rcases hlsb with h | h
    · exact Or.inl (of_decide_eq_true h)
    · exact Or.inr (of_decide_eq_true h)
  rcases Nat.lt_or_ge q 4 with h4 | h4
  · -- q = 3: the character there is the newline after the opener
    have hq : q = 3 := by omega
    subst hq
    have : (fullChars flat content).get? 3 = some '\n' := rfl
    rw [this] at hd0
    simp at hd0
  rcases Nat.lt_or_ge q (4 + flat.length) with hflat | hflat
  · -- q inside the flat header line
    rcases Nat.lt_or_ge q 5 with h5 | h5
    · have hq : q = 4 := by omega
      subst hq
      have h0 : (0 : Nat) < flat.length := by omega
      rw [show (4 : Nat) = 0 + 4 from rfl, fullChars_get_flat flat content 0 h0,
        hhead] at hd0
      simp at hd0
    · have hj : q - 1 - 4 < flat.length := by omega
      have hls' : (fullChars flat content).get? (q - 1) = some '\n' := by
        rcases hls with h | h
        · omega
        · exact h
      rw [show q - 1 = (q - 1 - 4) + 4 by omega,
        fullChars_get_flat flat content _ hj] at hls'
      exact absurd (List.get?_mem hls') hnl
  rcases Nat.lt_or_ge q (5 + flat.length) with h45 | h45
  · -- q = 4 + flat.length: the newline closing the header line
    have hq : q = flat.length + 0 + 4 := by omega
    rw [hq, fullChars_get_rest flat content 0] at hd0
    simp at hd0
  rcases Nat.lt_or_ge q (6 + flat.length) with h5F | h5F
  · omega
  rcases Nat.lt_or_ge q (8 + flat.length) with h67 | h67
  · -- q = 6+F or 7+F: the previous character is a dash, not a line start
    have hls' : (fullChars flat content).get? (q - 1) = some '\n' := by
      rcases hls with h | h
      · omega
      · exact h
    have hq : q - 1 = flat.length + (q - 1 - flat.length - 4) + 4 := by omega
    have hk : q - 1 - flat.length - 4 = 1 ∨ q - 1 - flat.length - 4 = 2 := by
      omega
    rw [hq, fullChars_get_rest flat content (q - 1 - flat.length - 4)] at hls'
    rcases hk with hk | hk <;> rw [hk] at hls' <;> simp at hls'
  rcases Nat.lt_or_ge q (9 + flat.length) with h8 | h8
  · -- q = 8 + flat.length: the newline after the closing dashes
    have hq : q = flat.length + 4 + 4 := by omega
    rw [hq, fullChars_get_rest flat content 4] at hd0
    simp at hd0
  · -- q in the content region: content would contain a dash line
    exfalso
    have hj0 : q = flat.length + ((q - (9 + flat.length)) + 5) + 4 := by omega
    have hj1 : q + 1 = flat.length + ((q - (9 + flat.length) + 1) + 5) + 4 := by
      omega
    have hj2 : q + 2 = flat.length + ((q - (9 + flat.length) + 2) + 5) + 4 := by
      omega
    have hj3 : q + 3 = flat.length + ((q - (9 + flat.length) + 3) + 5) + 4 := by
      omega
    rw [hj0, fullChars_get_rest flat content ((q - (9 + flat.length)) + 5),
      rest_get_content] at hd0
    rw [hj1, fullChars_get_rest flat content ((q - (9 + flat.length) + 1) + 5),
      rest_get_content] at hd1
    rw [hj2, fullChars_get_rest flat content ((q - (9 + flat.length) + 2) + 5),
      rest_get_content] at hd2
    rw [hj3, fullChars_get_rest flat content ((q - (9 + flat.length) + 3) + 5),
      rest_get_content] at hd3
    have hlsc : q - (9 + flat.length) = 0 ∨
        content.get? (q - (9 + flat.length) - 1) = some '\n' := by
      rcases hls with h | h
      · omega
      · rcases Nat.lt_or_ge q (10 + flat.length) with h9 | h9
        · left; omega
        · right
          have hq : q - 1 = flat.length + ((q - (9 + flat.length) - 1) + 5) + 4 := by
            omega
          rw [hq, fullChars_get_rest flat content ((q - (9 + flat.length) - 1) + 5),
            rest_get_content] at h
          exact h
    have hjlen : q - (9 + flat.length) < content.length := by
      by_contra hge
      have : content.get? (q - (9 + flat.length)) = none :=
        List.get?_eq_none.mpr (by omega)
      rw [this] at hd0
      simp at hd0
    have : hasDashLine content = true := by
      simp only [hasDashLine, List.any_eq_true]
      refine ⟨q - (9 + flat.length), List.mem_range.mpr hjlen, ?_⟩
      simp only [Bool.and_eq_true, Bool.or_eq_true, decide_eq_true_eq]
      exact ⟨⟨⟨⟨hlsc, hd0⟩, hd1⟩, hd2⟩, hd3⟩
    rw [this] at hdl
    simp at hdl

theorem fullChars_opener_0 (flat content : List Char) :
    isOpener (fullChars flat content) 0 = true := by
  simp [isOpener, lineStart, dashesAt, fullChars]

theorem fullChars_length (flat content : List Char) :
    (fullChars flat content).length = 9 + flat.length + content.length := by
  simp [fullChars]
  omega

theorem fullChars_decomp (flat content : List Char) :
    fullChars flat content =
      ('-' :: '-' :: '-' :: '\n' :: (flat ++ ['\n', '-', '-', '-', '\n'])) ++
        content := by
  simp [fullChars]

/-- On text of the exact shape `to_str` produces, the greedy anchored
split recovers the newline-framed header rendering and the content,
provided the content holds no dash line of its own. -/
theorem findSplit_full (flat content : List Char)
    (hnl : '\n' ∉ flat) (hhead : flat.get? 0 = some 'T')
    (hdl : hasDashLine content = false) :
    findSplit (fullChars flat content) =
      some ('\n' :: (flat ++ ['\n']), content) := by
  have hlen := fullChars_length flat content
  have hcl : lastCloserFrom (fullChars flat content) 3 =
      some (5 + flat.length) := by
    unfold lastCloserFrom
    apply scanLast_eq
    · intro j _ _ hf
      rw [Bool.and_eq_true] at hf
      exact fullChars_closer_unique flat content hnl hhead hdl j
        (of_decide_eq_true hf.1) hf.2
    · omega
    · omega
    · rw [Bool.and_eq_true]
      exact ⟨by rw [decide_eq_true_eq]; omega, fullChars_closer_q0 flat content⟩
  have hopen : scanFirst
      (fun p => isOpener (fullChars flat content) p &&
        (lastCloserFrom (fullChars flat content) (p + 3)).isSome)
      0 (fullChars flat content).length = some 0 := by
    apply scanFirst_zero
    · rw [Bool.and_eq_true]
      refine ⟨fullChars_opener_0 flat content, ?_⟩
      rw [show (0 + 3 : Nat) = 3 from rfl, hcl]
      rfl
    · omega
  simp only [findSplit, hopen, Nat.zero_add, hcl]
  have hdrop3 : (fullChars flat content).drop 3 =
      '\n' :: (flat ++ ('\n' :: '-' :: '-' :: '-' :: '\n' :: content)) := rfl
  rw [hdrop3]
  have htake : ('\n' :: (flat ++ ('\n' :: '-' :: '-' :: '-' :: '\n' :: content))).take
      (5 + flat.length - 3) = '\n' :: (flat ++ ['\n']) := by
    rw [show 5 + flat.length - 3 = (flat.length + 1) + 1 from by omega]
    rw [List.take_succ_cons, List.take_append]
    simp
  rw [htake]
  have hdropq : (fullChars flat content).drop (5 + flat.length + 4) = content := by
    rw [fullChars_decomp]
    apply List.drop_left'
    simp
    omega
  rw [hdropq]

theorem flattenToks_head_table (t : Table) :
    (flattenToks (serVal (.table t))).get? 0 = some 'T' := by
  rw [flattenToks_serVal_table]
  rfl

theorem to_str_data (e : Entry) :
    (Entry.to_str e).data =
      fullChars (flattenToks (serVal e.header)) e.content.data := by
  simp [Entry.to_str, toml_encode, fullChars, String.data_append]

/-- Shared round-trip lemma: parsing the serialization of an entry whose
header verifies, provided the content holds no dash line, returns the
entry (with the location the caller passes). -/
theorem entry_roundtrip (sv : String → Bool) (loc : StoreId) (e : Entry)
    (hv : EntryHeader.verify sv e.header = .ok ())
    (hc : hasDashLine e.content.data = false) :
    Entry.from_str sv loc (Entry.to_str e) = .ok ⟨loc, e.header, e.content⟩ := by
  rcases e with ⟨eloc, hdr, cont⟩
  simp only at hv hc
  cases hdr with
  | str s => simp [EntryHeader.verify] at hv
  | int i => simp [EntryHeader.verify] at hv
  | float b => simp [EntryHeader.verify] at hv
  | boolean b => simp [EntryHeader.verify] at hv
  | datetime d => simp [EntryHeader.verify] at hv
  | array a => simp [EntryHeader.verify] at hv
  | table t =>
    have hsplit := findSplit_full (flattenToks (serVal (.table t))) cont.data
      (newline_not_mem_flattenToks _) (flattenToks_head_table t) hc
    have hdec : toml_decode
        (String.mk ('\n' :: (flattenToks (serVal (Value.table t)) ++ ['\n']))) =
        some t := toml_decode_encode t
    have hvh : verify_header sv t = .ok () := by
      simpa [EntryHeader.verify] using hv
    have hcons : verify_header_consistency sv t = .ok t := by
      simp [verify_header_consistency, hvh]
    simp only [Entry.from_str, to_str_data, hsplit, EntryHeader.parse, hdec, hcons]

/-- Modelled from the spec: a `Hook` (the hook module is not in the
source snapshot).  A hook is a named unit of side-effecting logic with
per-hook configuration; its observable behaviour here is whether its
access succeeds. -/
structure Hook where
  name : String
  succeeds : Bool
  config : Option Value

/-- An `Aspect`: a named ordered list of hooks (hook/aspect.rs is not in
the source snapshot; modelled from the spec). -/
structure Aspect where
  name : String
  hooks : List Hook

/-- Modelled from the spec: `Aspect::access`/`access_mut` run the hooks
in registration order, short-circuiting on the first failure; the failing
hook's own error is opaque and carried by name. -/
def Aspect.accessResult (a : Aspect) : Option ErrObj :=
  match a.hooks.find? (fun h => !h.succeeds) with
  | some h => some (.hookError h.name)
  | none => none

/-- The fold in `execute_hooks_for_id`/`execute_hooks_for_mut_file`:
first failing aspect, in order. -/
def aspectsFirstFailure : List Aspect → Option ErrObj
  | [] => none
  | a :: rest =>
      match Aspect.accessResult a with
      | some e => some e
      | none => aspectsFirstFailure rest

/-- `Store::execute_hooks_for_id`: the accumulated result is wrapped as a
`PreHookExecuteError` with the hook failure as cause. -/
def execute_hooks_for_id (aspects : List Aspect) (_id : StoreId) : PRes Unit :=
  match aspectsFirstFailure aspects with
  | none => .ok ()
  | some e => .err (.store .PreHookExecuteError (some e))

/-- A `FileLockEntry`: the borrowed entry and its cache key (the store
reference is implicit in the operations below). -/
structure FileLockEntry where
  entry : Entry
  key : StoreId

/-- `Store::execute_hooks_for_mut_file`: the source wraps a failure as
`PreHookExecuteError` here too, even for post-hooks.  The modelled hooks
do not mutate the entry. -/
def execute_hooks_for_mut_file (aspects : List Aspect)
    (_fle : FileLockEntry) : PRes Unit :=
  match aspectsFirstFailure aspects with
  | none => .ok ()
  | some e => .err (.store .PreHookExecuteError (some e))

/-- Modelled from the spec: `HookPosition` (hook/position.rs is not in
the source snapshot): the eight lifecycle points. -/
inductive HookPosition where
  | PreCreate
  | PostCreate
  | PreRetrieve
  | PostRetrieve
  | PreUpdate
  | PostUpdate
  | PreDelete
  | PostDelete
deriving DecidableEq, Repr

/-- `StoreEntryStatus`. -/
inductive StoreEntryStatus where
  | Present
  | Borrowed
deriving DecidableEq, Repr

/-- A `StoreEntry` cache slot: identifier and borrow status.  The
`LazyFile` field is modelled from the spec as the file system map `FS`
below (lazyfile.rs is not in the source snapshot); opening a missing file
reports `FileNotFound`. -/
structure StoreEntry where
  id : StoreId
  status : StoreEntryStatus
deriving DecidableEq

/-- `StoreEntry::new`: a `Present` slot with an absent lazy file. -/
def StoreEntry.new (id : StoreId) : StoreEntry :=
  ⟨id, .Present⟩

/-- `StoreEntry::is_borrowed`. -/
def StoreEntry.is_borrowed (se : StoreEntry) : Bool :=
  se.status = .Borrowed

/-- Association-list lookup keyed by `StoreId`. -/
def alistGet {α : Type} (m : List (StoreId × α)) (k : StoreId) : Option α :=
  match m with
  | [] => none
  | (k', v) :: rest => if k' = k then some v else alistGet rest k

/-- Association-list insert-or-replace keyed by `StoreId` (`HashMap`
insert). -/
def alistSet {α : Type} (m : List (StoreId × α)) (k : StoreId) (v : α) :
    List (StoreId × α) :=
  match m with
  | [] => [(k, v)]
  | (k', v') :: rest =>
      if k' = k then (k, v) :: rest else (k', v') :: alistSet rest k v

/-- Association-list removal keyed by `StoreId` (`HashMap::remove`). -/
def alistRemove {α : Type} (m : List (StoreId × α)) (k : StoreId) :
    List (StoreId × α) :=
  match m with
  | [] => []
  | (k', v') :: rest =>
      if k' = k then rest else (k', v') :: alistRemove rest k

/-- The file system visible to the store: one text file per `StoreId`.
Modelled from the spec (the source reaches it through `LazyFile` and
`std::fs`); reads of present files and writes always succeed, a missing
file is `FileNotFound`. -/
abbrev FS := List (StoreId × String)

/-- The `Store`: location, configuration, the eight aspect registries and
the cache-slot table.  The `RwLock`/`Mutex` wrappers of the source are
modelled away: operations are whole-table atomic steps and lock poisoning
does not occur in the model. -/
structure Store where
  location : StoreId
  configuration : Option Value
  pre_create_aspects : List Aspect
  post_create_aspects : List Aspect
  pre_retrieve_aspects : List Aspect
  post_retrieve_aspects : List Aspect
  pre_update_aspects : List Aspect
  post_update_aspects : List Aspect
  pre_delete_aspects : List Aspect
  post_delete_aspects : List Aspect
  entries : List (StoreId × StoreEntry)

/-- `Store::storify_id`: prefix the store location. -/
def Store.storify_id (s : Store) (id : StoreId) : StoreId :=
  s.location ++ id

/-- `StoreEntry::get_entry`: a borrowed slot is `EntryAlreadyBorrowed`;
otherwise the file is opened — `FileNotFound` yields a fresh
`Entry::new`, a present file is parsed with `Entry::from_file`. -/
def StoreEntry.get_entry (sv : String → Bool) (se : StoreEntry) (fs : FS) :
    PRes Entry :=
  if !se.is_borrowed then
    match alistGet fs se.id with
    | none => .ok (Entry.new se.id)
    | some text => Entry.from_str sv se.id text
  else .err (.store .EntryAlreadyBorrowed none)

/-- `Store::retrieve`: pre-retrieve hooks on the storified id, get-or-
insert the slot, read its entry, mark the slot `Borrowed` (the source
does this even when `get_entry` failed), wrap in a `FileLockEntry`, run
post-retrieve hooks (a failure is wrapped as `HookExecutionError`). -/
def Store.retrieve (sv : String → Bool) (s : Store) (fs : FS) (id : StoreId) :
    PRes FileLockEntry × Store :=
  let i := s.storify_id id
  match execute_hooks_for_id s.pre_retrieve_aspects i with
  | .err e => (.err e, s)
  | .panic => (.panic, s)
  | .ok _ =>
      let se := (alistGet s.entries i).getD (StoreEntry.new i)
      let r := StoreEntry.get_entry sv se fs
      let s' := { s with entries := alistSet s.entries i { se with status := .Borrowed } }
      match r with
      | .err e => (.err e, s')
      | .panic => (.panic, s')
      | .ok ent =>
          let fle : FileLockEntry := ⟨ent, i⟩
          match execute_hooks_for_mut_file s.post_retrieve_aspects fle with
          | .err e => (.err (.store .HookExecutionError (some e)), s')
          | .panic => (.panic, s')
          | .ok _ => (.ok fle, s')

/-- `Store::_update`: look the slot up (`IdNotFound` if missing),
`assert!` it is borrowed (a failed assertion is a panic), verify the
header (failure aborts before writing), then `write_entry` — which
asserts the slot id equals the entry location, truncates and writes the
serialization — and mark the slot `Present`. -/
def Store.updateInternal (sv : String → Bool) (s : Store) (fs : FS)
    (entry : FileLockEntry) : PRes Unit × Store × FS :=
  match alistGet s.entries entry.key with
  | none => (.err (.store .IdNotFound none), s, fs)
  | some se =>
      if !se.is_borrowed then (.panic, s, fs)
      else
        match EntryHeader.verify sv entry.entry.header with
        | .err e => (.err e, s, fs)
        | .panic => (.panic, s, fs)
        | .ok _ =>
            if se.id ≠ entry.entry.location then (.panic, s, fs)
            else
              (.ok (),
               { s with entries :=
                  alistSet s.entries entry.key { se with status := .Present } },
               alistSet fs se.id (Entry.to_str entry.entry))

/-- `Drop for FileLockEntry`: `let _ = self.store._update(self)` — the
write-back runs and any failure is swallowed. -/
def FileLockEntry.dropRelease (sv : String → Bool) (s : Store) (fs : FS)
    (fle : FileLockEntry) : Store × FS :=
  ((Store.updateInternal sv s fs fle).2.1, (Store.updateInternal sv s fs fle).2.2)

/-- `Store::create`: pre-create hooks on the storified id, fail with
`EntryAlreadyExists` when a slot exists, insert a fresh `Borrowed` slot,
build the handle, run post-create hooks.  A post-hook failure is wrapped
as `PostHookExecuteError` and returned as the result of `create`, so the
handle is not returned in that case; the handle was moved into the final
`.map` closure, so on this path it is dropped inside `create` and its
implicit flush-on-drop (`Drop for FileLockEntry`, running `_update`)
writes the fresh entry and marks the slot `Present`.  (At that point the
source still holds the `entries` write lock, so the drop's reentrant
`write()` would not complete on a real `RwLock`; under this model's
stated lock-free convention the write-back runs as a step.)  On success
the handle is returned and nothing is written — the file is created
lazily on first write-back. -/
def Store.create (sv : String → Bool) (s : Store) (fs : FS) (id : StoreId) :
    PRes FileLockEntry × Store × FS :=
  let i := s.storify_id id
  match execute_hooks_for_id s.pre_create_aspects i with
  | .err e => (.err e, s, fs)
  | .panic => (.panic, s, fs)
  | .ok _ =>
      if (alistGet s.entries i).isSome then
        (.err (.store .EntryAlreadyExists none), s, fs)
      else
        let s' := { s with entries := alistSet s.entries i ⟨i, .Borrowed⟩ }
        let fle : FileLockEntry := ⟨Entry.new i, i⟩
        match execute_hooks_for_mut_file s.post_create_aspects fle with
        | .err e =>
            let rel := FileLockEntry.dropRelease sv s' fs fle
            (.err (.store .PostHookExecuteError (some e)), rel.1, rel.2)
        | .panic => (.panic, s', fs)
        | .ok _ => (.ok fle, s', fs)

/-- `Store::delete`: pre-delete hooks, `IdLocked` when the slot is
borrowed, remove the slot, then remove the backing file (a missing file
is a fatal `FileError` with the slot already gone), post-delete hooks. -/
def Store.delete (s : Store) (fs : FS) (id : StoreId) :
    PRes Unit × Store × FS :=
  let i := s.storify_id id
  match execute_hooks_for_id s.pre_delete_aspects i with
  | .err e => (.err e, s, fs)
  | .panic => (.panic, s, fs)
  | .ok _ =>
      if ((alistGet s.entries i).map (fun se => se.is_borrowed)).getD false then
        (.err (.store .IdLocked none), s, fs)
      else
        let s' := { s with entries := alistRemove s.entries i }
        match alistGet fs i with
        | none => (.err (.store .FileError (some (.io "NotFound"))), s', fs)
        | some _ =>
            let fs' := alistRemove fs i
            match execute_hooks_for_id s.post_delete_aspects i with
            | .err e => (.err e, s', fs')
            | .panic => (.panic, s', fs')
            | .ok _ => (.ok (), s', fs')

/-- `Store::retrieve_copy`: `IdLocked` when the slot is borrowed,
otherwise read through a fresh detached `StoreEntry` (no hooks run, the
cache is not touched). -/
def Store.retrieve_copy (sv : String → Bool) (s : Store) (fs : FS)
    (id : StoreId) : PRes Entry :=
  let i := s.storify_id id
  if ((alistGet s.entries i).map (fun se => se.is_borrowed)).getD false then
    .err (.store .IdLocked none)
  else
    StoreEntry.get_entry sv (StoreEntry.new i) fs

/-- `Store::get_config_for_hook`: the `hooks.<name>` entry of the store
configuration table. -/
def Store.get_config_for_hook (s : Store) (name : String) : Option Value :=
  match s.configuration with
  | some (.table tabl) =>
      match tableGet tabl "hooks" with
      | some (.table ht) => tableGet ht name
      | _ => none
  | _ => none

/-- The aspect registry selected by a lifecycle point. -/
def Store.aspectsFor (s : Store) (position : HookPosition) : List Aspect :=
  match position with
  | .PreCreate => s.pre_create_aspects
  | .PostCreate => s.post_create_aspects
  | .PreRetrieve => s.pre_retrieve_aspects
  | .PostRetrieve => s.post_retrieve_aspects
  | .PreUpdate => s.pre_update_aspects
  | .PostUpdate => s.post_update_aspects
  | .PreDelete => s.pre_delete_aspects
  | .PostDelete => s.post_delete_aspects

/-- Write one aspect registry back. -/
def Store.setAspectsFor (s : Store) (position : HookPosition)
    (l : List Aspect) : Store :=
  match position with
  | .PreCreate => { s with pre_create_aspects := l }
  | .PostCreate => { s with post_create_aspects := l }
  | .PreRetrieve => { s with pre_retrieve_aspects := l }
  | .PostRetrieve => { s with post_retrieve_aspects := l }
  | .PreUpdate => { s with pre_update_aspects := l }
  | .PostUpdate => { s with post_update_aspects := l }
  | .PreDelete => { s with pre_delete_aspects := l }
  | .PostDelete => { s with post_delete_aspects := l }

/-- The registration loop of `Store::register_hook`: append the hook to
the first aspect whose name matches (`Aspect::register_hook` appends, per
the spec's registration order); `none` when no aspect matches. -/
def registerInAspects (aspects : List Aspect) (aspect_name : String)
    (h : Hook) : Option (List Aspect) :=
  match aspects with
  | [] => none
  | a :: rest =>
      if a.name = aspect_name then
        some ({ a with hooks := a.hooks ++ [h] } :: rest)
      else (registerInAspects rest aspect_name h).map (a :: ·)

/-- `Store::register_hook`: pick the registry for the position, set the
hook's configuration from `get_config_for_hook`, register into the
matching aspect; when no aspect carries the name, return a
`HookRegisterError` whose cause is `AspectNameNotFoundError`, changing
nothing. -/
def Store.register_hook (s : Store) (position : HookPosition)
    (aspect_name : String) (h : Hook) : PRes Unit × Store :=
  let h' := match s.get_config_for_hook h.name with
    | some cfg => { h with config := some cfg }
    | none => h
  match registerInAspects (s.aspectsFor position) aspect_name h' with
  | some l => (.ok (), s.setAspectsFor position l)
  | none =>
      (.err (.store .HookRegisterError (some (.store .AspectNameNotFoundError none))),
       s)

/-- A concrete model of the semver parse-success predicate, for the
concrete instances below: accepts exactly the version strings they use. -/
def svTest : String → Bool := fun s => s = "0.0.3"

/-- A minimal header that passes `verify` under `svTest`. -/
def goodHeader : Value :=
  .table [( "imag", .table [( "version", .str "0.0.3")])]

/-- A header with a one-element integer array at `a`, the boundary shape
of the source test suite's `a.array` section. -/
def arrHeader : Value := .table [( "a", .array [.int 0])]

/-- A concrete entry whose header verifies and whose content contains a
line of three dashes. -/
def entryDashContent : Entry := ⟨[ "test"], goodHeader, "A\n---\nB"⟩

/-- A concrete entry whose header verifies and whose content is plain. -/
def entryPlainContent : Entry := ⟨[ "test"], goodHeader, "Hai"⟩

/-- C1, counterexample: for an entry whose header passes `verify` but
whose content contains a `---` line, `from_str(to_str(e))` does not
return the entry — the greedy `header` capture of the anchored regex runs
to the last dash line, the header text fails to parse, and the result is
`MalformedEntry` wrapping the TOML parser failure. -/
theorem C1_counterexample :
    EntryHeader.verify svTest entryDashContent.header = .ok () ∧
    Entry.from_str svTest [ "test"] (Entry.to_str entryDashContent) =
      .err (.store .MalformedEntry (some (.parser .TOMLParserErrors none))) := by
  constructor
  · rfl
  · rfl

/-- C1 (amended): for every entry whose header passes `verify` and whose
content contains no line of three dashes followed by a newline, parsing
the serialized form succeeds and returns an entry with the same header
and the same content (at the location the caller passes). -/
theorem C1_roundtrip (sv : String → Bool) (loc : StoreId) (e : Entry)
    (hv : EntryHeader.verify sv e.header = .ok ())
    (hc : hasDashLine e.content.data = false) :
    Entry.from_str sv loc (Entry.to_str e) = .ok ⟨loc, e.header, e.content⟩ :=
  entry_roundtrip sv loc e hv hc

/-- C1, witness: the round trip at a concrete verified entry. -/
theorem C1_roundtrip_witness :
    Entry.from_str svTest [ "test"] (Entry.to_str entryPlainContent) =
      .ok ⟨[ "test"], entryPlainContent.header, entryPlainContent.content⟩ :=
  C1_roundtrip svTest [ "test"] entryPlainContent rfl rfl

/-- C2: reading an array of length `n` at final index `i` yields
`Ok(None)` for `i > n` and for missing table keys, but at `i = n` exactly
the bound check `a.len() < i` in `extract_from_array` admits the index
and `&mut a[i]` indexes out of bounds: a panic, contradicting the doc
comment on `read` ( "None ... even if the accessed index is much larger
than the array length"). -/
theorem C2_read_at_len_panics :
    EntryHeader.read_with_sep arrHeader "a.1" '.' = .panic ∧
    EntryHeader.read_with_sep arrHeader "a.2" '.' = .ok none ∧
    EntryHeader.read_with_sep arrHeader "b" '.' = .ok none := by
  refine ⟨rfl, rfl, rfl⟩

/-- C4: insert on an array destination.  At a free index `i = n` the
existence check `extract` indexes out of bounds (panic); at `i ≥ n + 2`
the post-push guard `a.len() < i` sends `swap_remove(i)` past the end
(panic); only `i = n + 1` actually appends and returns `Ok(true)` — all
contradicting the doc comment ( "out of bounds ... the element is
appended") and the claim's "without panicking for any index". -/
theorem C4_insert_out_of_range_panics :
    EntryHeader.insert_with_sep arrHeader "a.1" '.' (.int 7) = .panic ∧
    EntryHeader.insert_with_sep arrHeader "a.3" '.' (.int 7) = .panic ∧
    EntryHeader.insert_with_sep arrHeader "a.2" '.' (.int 7) =
      .ok (.table [( "a", .array [.int 0, .int 7])], true) := by
  refine ⟨rfl, rfl, rfl⟩

theorem tableSet_self (t : Table) (k : String) (v : Value)
    (h : tableGet t k = some v) : tableSet t k v = t := by
  induction t with
  | nil => simp [tableGet] at h
  | cons p rest ih =>
    rcases p with ⟨k', v'⟩
    by_cases hk : k' = k
    · subst hk
      rw [tableGet, if_pos rfl] at h
      have hv : v' = v := by simpa using h
      subst hv
      simp [tableSet, tableInsert]
    · rw [tableGet, if_neg hk] at h
      have hrec := ih h
      simp only [tableSet, tableInsert, if_neg hk]
      rw [show (tableInsert rest k v).1 = tableSet rest k v from rfl, hrec]

theorem list_set_get_self (l : List Value) (n : Nat) (x : Value)
    (h : l.get? n = some x) : l.set n x = l := by
  induction l generalizing n with
  | nil => simp at h
  | cons a rest ih =>
    cases n with
    | zero =>
      have : a = x := by simpa using h
      subst this
      rfl
    | succ m =>
      have h' : rest.get? m = some x := by simpa using h
      simp [ih m h']

/-- C3, counterexample: `set` on the length-1 array at index 1 (equal to
the length) returns `Ok(Some(v))` with the array unchanged — the pushed
element is immediately swap-removed — where the claim, for `i ≥ n`,
predicts `Ok(None)` with `v` left appended. -/
theorem C3_counterexample :
    EntryHeader.set_with_sep arrHeader "a.1" '.' (.int 42) =
      .ok (arrHeader, some (.int 42)) ∧
    EntryHeader.set_with_sep arrHeader "a.1" '.' (.int 42) ≠
      .ok (.table [( "a", .array [.int 0, .int 42])], none) := by
  refine ⟨rfl, ?_⟩
  intro h
  rw [show EntryHeader.set_with_sep arrHeader "a.1" '.' (.int 42) =
      .ok (arrHeader, some (.int 42)) from rfl] at h
  simp at h

/-- C3 (amended): `set` on an array destination of length `n` at index
`i` never panics; for `i < n` it replaces the element at `i` (the pushed
value is swapped into place) and returns the old element; for `i = n` it
returns `Ok(Some(v))` with the array left unchanged (the swap-remove
takes back the value just pushed); for `i > n` it returns `Ok(None)` with
`v` left appended at the end. -/
theorem C3_set_array (t : Table) (k : String) (a : List Value) (v : Value)
    (i : Nat) (hk : tableGet t k = some (.array a)) :
    EntryHeader.set_tokens (.table t) [.key k, .index i] v =
      if i < a.length then
        .ok (.table (tableSet t k (.array (a.set i v))), a.get? i)
      else if i = a.length then .ok (.table t, some v)
      else .ok (.table (tableSet t k (.array (a ++ [v]))), none) := by
  have hlast : ([Token.key k, Token.index i]).getLast? = some (Token.index i) := rfl
  have hdrop : ([Token.key k, Token.index i]).dropLast = [Token.key k] := rfl
  simp only [EntryHeader.set_tokens, hlast, hdrop, EntryHeader.walk_apply,
    EntryHeader.extract, EntryHeader.extract_from_table, hk]
  rcases Nat.lt_trichotomy i a.length with hi | hi | hi
  · have hcond : (a ++ [v]).length > i := by simp; omega
    rcases hx : a.get? i with _ | x
    · exact absurd (List.get?_eq_none.mp hx) (by omega)
    · have hget : (a ++ [v]).get? i = some x := by
        rw [List.get?_append hi, hx]
      have hset : (a ++ [v]).set i v = a.set i v ++ [v] :=
        List.set_append_left i v hi
      simp only [if_pos hcond, swap_remove, hget, List.getLast?_concat,
        Option.getD_some, hset, List.dropLast_concat, EntryHeader.putChild,
        if_pos hi, hx]
  · subst hi
    have hcond : (a ++ [v]).length > a.length := by simp
    have hget : (a ++ [v]).get? a.length = some v := List.get?_concat_length a v
    have hset : (a ++ [v]).set a.length v = a ++ [v] :=
      list_set_get_self _ _ _ hget
    simp only [if_pos hcond, swap_remove, hget, List.getLast?_concat,
      Option.getD_some, hset, List.dropLast_concat, EntryHeader.putChild,
      tableSet_self t k (.array a) hk]
    simp
  · have hcond : ¬ ((a ++ [v]).length > i) := by simp; omega
    simp only [if_neg hcond, EntryHeader.putChild, if_neg (by omega : ¬ i < a.length),
      if_neg (by omega : ¬ i = a.length)]

/-- C3, witness: overwriting index 0 of the one-element array. -/
theorem C3_set_array_witness :
    EntryHeader.set_tokens (.table [( "a", .array [.int 0])])
      [.key "a", .index 0] (.int 42) =
      .ok (.table [( "a", .array [.int 42])], some (.int 0)) := by
  have h := C3_set_array [( "a", .array [.int 0])] "a" [.int 0] (.int 42) 0 rfl
  simpa using h

theorem has_main_section_iff (t : Table) :
    has_main_section t = true ↔
      ∃ sec, tableGet t "imag" = some (.table sec) := by
  unfold has_main_section tableContains
  cases h : tableGet t "imag" with
  | none => simp
  | some v => cases v <;> simp

theorem has_imag_version_iff (sv : String → Bool) (t : Table) (sec : Table)
    (hm : tableGet t "imag" = some (.table sec)) :
    has_imag_version_in_main_section sv t = true ↔
      ∃ vs, tableGet sec "version" = some (.str vs) ∧ sv vs = true := by
  unfold has_imag_version_in_main_section
  rw [hm]
  cases h : tableGet sec "version" with
  | none => simp [h]
  | some v => cases v <;> simp [h]

theorem has_only_tables_iff (t : Table) :
    has_only_tables t = true ↔ ∀ p ∈ t, ∃ sub, p.2 = Value.table sub := by
  unfold has_only_tables
  rw [List.all_eq_true]
  constructor
  · intro h p hp
    have hx := h p hp
    revert hx
    cases p.2 <;> simp
  · intro h p hp
    rcases h p hp with ⟨sub, hsub⟩
    simp [hsub]

theorem verify_ok_iff_bools (sv : String → Bool) (t : Table) :
    EntryHeader.verify sv (.table t) = .ok () ↔
      (has_main_section t = true ∧
        has_imag_version_in_main_section sv t = true ∧
        has_only_tables t = true) := by
  unfold EntryHeader.verify verify_header
  cases h1 : has_main_section t <;>
    cases h2 : has_imag_version_in_main_section sv t <;>
      cases h3 : has_only_tables t <;> simp [h1, h2, h3]

theorem main_version_iff (sv : String → Bool) (t : Table) :
    (has_main_section t = true ∧
      has_imag_version_in_main_section sv t = true) ↔
      (∃ sec, tableGet t "imag" = some (.table sec) ∧
        ∃ vs, tableGet sec "version" = some (.str vs) ∧ sv vs = true) := by
  constructor
  · rintro ⟨hm, hv⟩
    rcases (has_main_section_iff t).mp hm with ⟨sec, hsec⟩
    exact ⟨sec, hsec, (has_imag_version_iff sv t sec hsec).mp hv⟩
  · rintro ⟨sec, hsec, hvs⟩
    exact ⟨(has_main_section_iff t).mpr ⟨sec, hsec⟩,
      (has_imag_version_iff sv t sec hsec).mpr hvs⟩

/-- C5: for a header whose root is the table `t`, `verify()` succeeds iff
`t` holds `imag` as a table, that table's `version` entry is a string the
semver parser accepts, and every top-level value of `t` is a table; the
three failure cases surface (inside the `MalformedEntry` wrapper that
`From<ParserError>` adds) as the parser kinds `MissingMainSection`,
`MissingVersionInfo` and `NonTableInBaseTable` respectively. -/
theorem C5_verify_iff (sv : String → Bool) (t : Table) :
    (EntryHeader.verify sv (.table t) = .ok () ↔
      ((∃ sec, tableGet t "imag" = some (.table sec) ∧
          ∃ vs, tableGet sec "version" = some (.str vs) ∧ sv vs = true) ∧
        ∀ p ∈ t, ∃ sub, p.2 = Value.table sub)) ∧
    ((¬ ∃ sec, tableGet t "imag" = some (.table sec)) →
      EntryHeader.verify sv (.table t) =
        .err (.store .MalformedEntry (some (.parser .MissingMainSection none)))) ∧
    (∀ sec, tableGet t "imag" = some (.table sec) →
      (¬ ∃ vs, tableGet sec "version" = some (.str vs) ∧ sv vs = true) →
      EntryHeader.verify sv (.table t) =
        .err (.store .MalformedEntry (some (.parser .MissingVersionInfo none)))) ∧
    (∀ sec, tableGet t "imag" = some (.table sec) →
      (∃ vs, tableGet sec "version" = some (.str vs) ∧ sv vs = true) →
      (¬ ∀ p ∈ t, ∃ sub, p.2 = Value.table sub) →
      EntryHeader.verify sv (.table t) =
        .err (.store .MalformedEntry (some (.parser .NonTableInBaseTable none)))) := by
  refine ⟨?_, ?_, ?_, ?_⟩
  · rw [verify_ok_iff_bools, and_assoc.symm, main_version_iff, has_only_tables_iff]
  · intro hno
    have hmf : has_main_section t = false := by
      cases h : has_main_section t
      · rfl
      · exact absurd ((has_main_section_iff t).mp h) hno
    unfold EntryHeader.verify verify_header
    simp [hmf]
  · intro sec hsec hno
    have hm : has_main_section t = true :=
      (has_main_section_iff t).mpr ⟨sec, hsec⟩
    have hvf : has_imag_version_in_main_section sv t = false := by
      cases h : has_imag_version_in_main_section sv t
      · rfl
      · exact absurd ((has_imag_version_iff sv t sec hsec).mp h) hno
    unfold EntryHeader.verify verify_header
    simp [hm, hvf]
  · intro sec hsec hvs hno
    have hm : has_main_section t = true :=
      (has_main_section_iff t).mpr ⟨sec, hsec⟩
    have hv : has_imag_version_in_main_section sv t = true :=
      (has_imag_version_iff sv t sec hsec).mpr hvs
    have hof : has_only_tables t = false := by
      cases h : has_only_tables t
      · rfl
      · exact absurd ((has_only_tables_iff t).mp h) hno
    unfold EntryHeader.verify verify_header
    simp [hm, hv, hof]

/-- C5, witness: the concrete minimal header verifies, through the iff. -/
theorem C5_verify_iff_witness :
    EntryHeader.verify svTest (.table [( "imag", .table [( "version", .str "0.0.3")])]) =
      .ok () :=
  (C5_verify_iff svTest _).1.mpr
    ⟨⟨_, rfl, "0.0.3", rfl, rfl⟩, by
      intro p hp
      rcases List.mem_singleton.mp hp with rfl
      exact ⟨_, rfl⟩⟩

theorem alistGet_set_self {α : Type} (m : List (StoreId × α)) (k : StoreId)
    (v : α) : alistGet (alistSet m k v) k = some v := by
  induction m with
  | nil => simp [alistSet, alistGet]
  | cons p rest ih =>
    rcases p with ⟨k', v'⟩
    by_cases hk : k' = k
    · subst hk
      simp [alistSet, alistGet]
    · simp [alistSet, alistGet, hk, ih]

theorem storify_update_entries (s : Store) (x : List (StoreId × StoreEntry))
    (id : StoreId) :
    Store.storify_id { s with entries := x } id = Store.storify_id s id := rfl

/-- C6 (amended): while the cache slot of an identifier is `Borrowed`, a
second `retrieve` fails with `EntryAlreadyBorrowed` (given the
pre-retrieve hooks pass); after the first handle is released — the drop
write-back marks the slot `Present` and writes the serialized entry —
`retrieve` succeeds and returns the entry back, provided the released
content holds no `---` line (otherwise the flushed file re-triggers the
greedy-regex parse failure, see the counterexample). -/
theorem C6_borrow_exclusive (sv : String → Bool) (s : Store) (fs : FS)
    (id : StoreId) (se : StoreEntry) (fle : FileLockEntry)
    (hpre : aspectsFirstFailure s.pre_retrieve_aspects = none)
    (hpost : aspectsFirstFailure s.post_retrieve_aspects = none)
    (hslot : alistGet s.entries (s.storify_id id) = some se)
    (hb : se.status = .Borrowed)
    (hsid : se.id = s.storify_id id)
    (hkey : fle.key = s.storify_id id)
    (hloc : fle.entry.location = s.storify_id id)
    (hv : EntryHeader.verify sv fle.entry.header = .ok ())
    (hdash : hasDashLine fle.entry.content.data = false) :
    (Store.retrieve sv s fs id).1 = .err (.store .EntryAlreadyBorrowed none) ∧
    (Store.retrieve sv (FileLockEntry.dropRelease sv s fs fle).1
        (FileLockEntry.dropRelease sv s fs fle).2 id).1 =
      .ok ⟨⟨s.storify_id id, fle.entry.header, fle.entry.content⟩,
        s.storify_id id⟩ := by
  obtain ⟨sid, sstatus⟩ := se
  obtain ⟨⟨floc, fhdr, fcont⟩, fkey⟩ := fle
  simp only at hslot hb hsid hkey hloc hv hdash
  subst hb hsid hkey hloc
  constructor
  · simp only [Store.retrieve, execute_hooks_for_id, hpre, hslot,
      Option.getD_some, StoreEntry.get_entry, StoreEntry.is_borrowed]
    simp
  · have hupd : Store.updateInternal sv s fs
        ⟨⟨s.storify_id id, fhdr, fcont⟩, s.storify_id id⟩ =
        (.ok (),
         { s with entries :=
            (alistSet s.entries (s.storify_id id) ⟨s.storify_id id, .Present⟩) },
         (alistSet fs (s.storify_id id)
           (Entry.to_str ⟨s.storify_id id, fhdr, fcont⟩))) := by
      simp only [Store.updateInternal, hslot, StoreEntry.is_borrowed, hv]
      simp
    have hdr : FileLockEntry.dropRelease sv s fs
        ⟨⟨s.storify_id id, fhdr, fcont⟩, s.storify_id id⟩ =
        ({ s with entries :=
            (alistSet s.entries (s.storify_id id) ⟨s.storify_id id, .Present⟩) },
         (alistSet fs (s.storify_id id)
           (Entry.to_str ⟨s.storify_id id, fhdr, fcont⟩))) := by
      simp [FileLockEntry.dropRelease, hupd]
    rw [hdr]
    have hrt := entry_roundtrip sv (s.storify_id id)
      ⟨s.storify_id id, fhdr, fcont⟩ hv hdash
    simp only [Store.retrieve, storify_update_entries, execute_hooks_for_id,
      hpre, hpost, alistGet_set_self, Option.getD_some, StoreEntry.get_entry,
      StoreEntry.is_borrowed, execute_hooks_for_mut_file, hrt]
    simp

/-- C7: deleting an identifier whose cache slot is `Borrowed` fails with
`IdLocked` (given the pre-delete hooks pass) and changes nothing: the
slot table and the file system come back exactly as they were. -/
theorem C7_delete_locked (s : Store) (fs : FS) (id : StoreId) (se : StoreEntry)
    (hpre : aspectsFirstFailure s.pre_delete_aspects = none)
    (hslot : alistGet s.entries (s.storify_id id) = some se)
    (hb : se.status = .Borrowed) :
    Store.delete s fs id = (.err (.store .IdLocked none), s, fs) := by
  simp [Store.delete, execute_hooks_for_id, hpre, hslot,
    StoreEntry.is_borrowed, hb]

/-- The concrete store of the borrow scenarios: one slot, Borrowed. -/
def storeBorrowedSlot : Store :=
  ⟨[ "store"], none, [], [], [], [], [], [], [], [],
   [([ "store", "e"], ⟨[ "store", "e"], .Borrowed⟩)]⟩

/-- The concrete borrowed handle of the borrow scenarios. -/
def fleTest : FileLockEntry :=
  ⟨⟨[ "store", "e"], goodHeader, "Hai"⟩, [ "store", "e"]⟩

/-- C7, witness. -/
theorem C7_delete_locked_witness :
    Store.delete storeBorrowedSlot [] [ "e"] =
      (.err (.store .IdLocked none), storeBorrowedSlot, []) :=
  C7_delete_locked storeBorrowedSlot [] [ "e"] ⟨[ "store", "e"], .Borrowed⟩
    rfl rfl rfl

/-- C6, witness: the two halves of borrow exclusivity at the concrete
borrowed store. -/
theorem C6_borrow_exclusive_witness :
    (Store.retrieve svTest storeBorrowedSlot [] [ "e"]).1 =
      .err (.store .EntryAlreadyBorrowed none) ∧
    (Store.retrieve svTest
        (FileLockEntry.dropRelease svTest storeBorrowedSlot [] fleTest).1
        (FileLockEntry.dropRelease svTest storeBorrowedSlot [] fleTest).2
        [ "e"]).1 =
      .ok ⟨⟨[ "store", "e"], goodHeader, "Hai"⟩, [ "store", "e"]⟩ :=
  C6_borrow_exclusive svTest storeBorrowedSlot [] [ "e"]
    ⟨[ "store", "e"], .Borrowed⟩ fleTest rfl rfl rfl rfl rfl rfl rfl rfl rfl

/-- A borrowed handle whose header verifies but whose content holds a
line of three dashes. -/
def fleDash : FileLockEntry :=
  ⟨⟨[ "store", "e"], goodHeader, "A\n---\nB"⟩, [ "store", "e"]⟩

/-- C6, counterexample: releasing a handle whose content holds a `---`
line does mark the slot `Present` again — but the next `retrieve` then
re-parses the flushed file through the greedy anchored regex and fails
with `MalformedEntry`, not with success, refuting the claim's "after the
first handle is released ... retrieve(E) succeeds" at this input. -/
theorem C6_counterexample :
    alistGet (FileLockEntry.dropRelease svTest storeBorrowedSlot [] fleDash).1.entries
        [ "store", "e"] = some ⟨[ "store", "e"], .Present⟩ ∧
    (Store.retrieve svTest
        (FileLockEntry.dropRelease svTest storeBorrowedSlot [] fleDash).1
        (FileLockEntry.dropRelease svTest storeBorrowedSlot [] fleDash).2
        [ "e"]).1 =
      .err (.store .MalformedEntry (some (.parser .TOMLParserErrors none))) ∧
    ((Store.retrieve svTest
        (FileLockEntry.dropRelease svTest storeBorrowedSlot [] fleDash).1
        (FileLockEntry.dropRelease svTest storeBorrowedSlot [] fleDash).2
        [ "e"]).1).isOk = false := by
  refine ⟨rfl, rfl, rfl⟩

/-- The concrete store with one failing post-create hook. -/
def storeFailingPostCreate : Store :=
  ⟨[ "store"], none, [], [⟨ "asp", [⟨ "h1", false, none⟩]⟩], [], [], [], [], [],
   [], []⟩

theorem alistSet_alistSet {α : Type} (m : List (StoreId × α)) (k : StoreId)
    (v w : α) : alistSet (alistSet m k v) k w = alistSet m k w := by
  induction m with
  | nil => simp [alistSet]
  | cons p rest ih =>
    rcases p with ⟨k', v'⟩
    by_cases hk : k' = k
    · subst hk
      simp [alistSet]
    · simp [alistSet, hk, ih]

theorem verify_default_header (sv : String → Bool)
    (hsv : sv imagVersion = true) :
    EntryHeader.verify sv build_default_header = .ok () := by
  simp [EntryHeader.verify, verify_header, build_default_header,
    has_main_section, has_imag_version_in_main_section, has_only_tables,
    tableContains, tableGet, hsv]

/-- C8, counterexample: when a post-create hook fails, `create` returns
`Err(PostHookExecuteError(...))` — the Guarded Handle is NOT returned to
the caller, refuting the claim that it still is. -/
theorem C8_counterexample :
    (Store.create svTest storeFailingPostCreate [] [ "e"]).1 =
      .err (.store .PostHookExecuteError (some (.store .PreHookExecuteError
        (some (.hookError "h1"))))) ∧
    ((Store.create svTest storeFailingPostCreate [] [ "e"]).1).isOk = false := by
  exact ⟨rfl, rfl⟩

/-- C8 (amended): when the pre-create hooks pass, no slot exists yet,
a post-create hook fails, and the semver parser accepts the crate
version (as it always does in the shipped program), `create` returns the
`PostHookExecuteError` (wrapping the hook failure) instead of the
handle; the handle is dropped inside `create`, and its implicit
flush-on-drop writes the fresh default entry to the backing file and
leaves the just-inserted cache slot `Present`. -/
theorem C8_create_posthook_error (sv : String → Bool) (s : Store) (fs : FS)
    (id : StoreId) (e : ErrObj)
    (hpre : aspectsFirstFailure s.pre_create_aspects = none)
    (habsent : alistGet s.entries (s.storify_id id) = none)
    (hfail : aspectsFirstFailure s.post_create_aspects = some e)
    (hsv : sv imagVersion = true) :
    Store.create sv s fs id =
      (.err (.store .PostHookExecuteError
        (some (.store .PreHookExecuteError (some e)))),
       { s with entries :=
          (alistSet s.entries (s.storify_id id) ⟨s.storify_id id, .Present⟩) },
       (alistSet fs (s.storify_id id)
         (Entry.to_str (Entry.new (s.storify_id id))))) := by
  have hvd := verify_default_header sv hsv
  simp [Store.create, execute_hooks_for_id, hpre, habsent,
    execute_hooks_for_mut_file, hfail, FileLockEntry.dropRelease,
    Store.updateInternal, alistGet_set_self, StoreEntry.is_borrowed,
    Entry.new, hvd, alistSet_alistSet]

/-- C8, witness. -/
theorem C8_create_posthook_error_witness :
    Store.create svTest storeFailingPostCreate [] [ "e"] =
      (.err (.store .PostHookExecuteError
        (some (.store .PreHookExecuteError (some (.hookError "h1"))))),
       { storeFailingPostCreate with entries :=
          [([ "store", "e"], ⟨[ "store", "e"], .Present⟩)] },
       [([ "store", "e"], Entry.to_str (Entry.new [ "store", "e"]))]) :=
  C8_create_posthook_error svTest storeFailingPostCreate [] [ "e"]
    (.hookError "h1") rfl rfl rfl rfl

theorem registerInAspects_none (aspects : List Aspect) (aspect_name : String)
    (h : Hook) (hn : ∀ a ∈ aspects, a.name ≠ aspect_name) :
    registerInAspects aspects aspect_name h = none := by
  induction aspects with
  | nil => rfl
  | cons a rest ih =>
    have ha : a.name ≠ aspect_name := hn a (by simp)
    simp only [registerInAspects, if_neg ha]
    rw [ih fun x hx => hn x (by simp [hx])]
    rfl

/-- C9 (amended): registering a hook under an aspect name carried by no
configured aspect of the chosen lifecycle point fails with a
`HookRegisterError` whose cause is `AspectNameNotFoundError`, and returns
the store unchanged — no aspect's hook list is mutated. -/
theorem C9_register_unknown_aspect (s : Store) (position : HookPosition)
    (aspect_name : String) (h : Hook)
    (hn : ∀ a ∈ s.aspectsFor position, a.name ≠ aspect_name) :
    Store.register_hook s position aspect_name h =
      (.err (.store .HookRegisterError
        (some (.store .AspectNameNotFoundError none))), s) := by
  simp only [Store.register_hook, registerInAspects_none _ _ _ hn]

/-- The concrete store with one configured pre-create aspect. -/
def storeOneAspect : Store :=
  ⟨[ "store"], none, [⟨ "known", []⟩], [], [], [], [], [], [], [], []⟩

/-- C9, counterexample: the error returned for an unknown aspect name has
top-level `err_type()` `HookRegisterError`, not `AspectNameNotFoundError`
(which appears only as the wrapped cause) — refuting the claim's error
kind while confirming the no-mutation part. -/
theorem C9_counterexample :
    Store.register_hook storeOneAspect .PreCreate "missing" ⟨ "h", true, none⟩ =
      (.err (.store .HookRegisterError
        (some (.store .AspectNameNotFoundError none))), storeOneAspect) ∧
    ErrObj.err_type (.store .HookRegisterError
      (some (.store .AspectNameNotFoundError none))) =
        some .HookRegisterError ∧
    some StoreErrorKind.HookRegisterError ≠
      some StoreErrorKind.AspectNameNotFoundError := by
  refine ⟨rfl, rfl, by decide⟩

/-- C9, witness. -/
theorem C9_register_unknown_aspect_witness :
    Store.register_hook storeOneAspect .PreCreate "other" ⟨ "h2", true, none⟩ =
      (.err (.store .HookRegisterError
        (some (.store .AspectNameNotFoundError none))), storeOneAspect) :=
  C9_register_unknown_aspect storeOneAspect .PreCreate "other" ⟨ "h2", true, none⟩
    (by
      intro a ha
      rcases List.mem_singleton.mp ha with rfl
      decide)

/-- C10: `retrieve_copy` on an identifier with no cache slot and no
backing file does not fail with a not-found error: the `FileNotFound`
from the lazy file open is converted into a fresh default entry — empty
content and the default header skeleton. -/
theorem C10_retrieve_copy_fresh (sv : String → Bool) (s : Store) (fs : FS)
    (id : StoreId)
    (hnoslot : alistGet s.entries (s.storify_id id) = none)
    (hnofile : alistGet fs (s.storify_id id) = none) :
    Store.retrieve_copy sv s fs id =
      .ok ⟨s.storify_id id, build_default_header, ""⟩ := by
  simp [Store.retrieve_copy, hnoslot, StoreEntry.get_entry, StoreEntry.new,
    StoreEntry.is_borrowed, hnofile, Entry.new]

/-- The concrete empty store. -/
def storeEmpty : Store :=
  ⟨[ "store"], none, [], [], [], [], [], [], [], [], []⟩

/-- C10, witness. -/
theorem C10_retrieve_copy_fresh_witness :
    Store.retrieve_copy svTest storeEmpty [] [ "e"] =
      .ok ⟨[ "store", "e"], build_default_header, ""⟩ :=
  C10_retrieve_copy_fresh svTest storeEmpty [] [ "e"] rfl rfl

